import Mathlib

/-!
Verification of the script engine in `session2/complete/script.py`:
the binary script codec (`Script.parse`, `Script.raw_serialize`,
`Script.serialize`), the stack-machine evaluator (`Script.evaluate`)
with script-hash and witness-program expansion, and the four
lock-pattern predicates.

Bytes are modelled as `List Nat`, a command list as a list of the
tagged union {Opcode, DataPush}.  Fallible Python code (raised
exceptions) is modelled with `Option` / an explicit `exn` outcome.
The hash primitives (`hash160`, `sha256`) and the opcode dispatch
table `OP_CODE_FUNCTIONS` live in the external collaborator modules
`helper` and `op`; they are parameters of the embedding.  The varint
and varstr codecs and the three hand-executed opcodes of the
script-hash rule are likewise from those external modules and are
modelled from the spec.
-/

namespace PW

/-- A byte string: list of byte values. -/
abbrev Bytes := List Nat

/-- A script command: an opcode (stored as an `int` in the Python list)
or a data push (stored as `bytes`). -/
inductive Command where
  | op (n : Nat)
  | push (bs : Bytes)
  deriving DecidableEq, Repr

/-- `Script`: an ordered command list (`self.commands`). -/
structure Script where
  commands : List Command
  deriving DecidableEq, Repr

/-- Modelled from the spec: `helper.little_endian_to_int` (module
`helper` is not under src/), i.e. `int.from_bytes(b, "little")`.
On the empty string this is `0`. -/
def littleEndianToInt (bs : Bytes) : Nat :=
  bs.foldr (fun b acc => b + 256 * acc) 0

/-- Modelled from the spec: `helper.int_to_little_endian` (module
`helper` is not under src/), i.e. `n.to_bytes(length, "little")`,
which raises `OverflowError` when `n` does not fit. -/
def intToLittleEndian (n length : Nat) : Option Bytes :=
  if n < 256 ^ length then
    some ((List.range length).map (fun i => n / 256 ^ i % 256))
  else
    none

/-- Modelled from the spec: `helper.encode_varint` (module `helper` is
not under src/): values below `0xfd` are one byte, then the
`0xfd`/`0xfe`/`0xff` tiers with 2/4/8 little-endian bytes; values of
64 bits or more raise. -/
def encodeVarint (n : Nat) : Option Bytes :=
  if n < 0xfd then some [n]
  else if n < 0x10000 then (intToLittleEndian n 2).map (0xfd :: ·)
  else if n < 0x100000000 then (intToLittleEndian n 4).map (0xfe :: ·)
  else if n < 0x10000000000000000 then (intToLittleEndian n 8).map (0xff :: ·)
  else none

/-- Modelled from the spec: `helper.read_varint` (module `helper` is
not under src/).  Reads one byte (raising on an exhausted stream) and
then, for the marker values, 2/4/8 further little-endian bytes. -/
def readVarint : Bytes → Option (Nat × Bytes)
  | [] => none
  | b :: rest =>
    if b = 0xfd then some (littleEndianToInt (rest.take 2), rest.drop 2)
    else if b = 0xfe then some (littleEndianToInt (rest.take 4), rest.drop 4)
    else if b = 0xff then some (littleEndianToInt (rest.take 8), rest.drop 8)
    else some (b, rest)

/-- Modelled from the spec: `helper.encode_varstr` (module `helper` is
not under src/): the varint of the length followed by the bytes. -/
def encodeVarstr (bs : Bytes) : Option Bytes :=
  (encodeVarint bs.length).map (· ++ bs)

/-- The loop body of `Script.parse` (script.py lines 77-108): reads
commands from the stream while fewer than `length` bytes have been
consumed, mirroring the Python byte count bookkeeping.  A read of the
current byte from an exhausted stream is the Python `IndexError`
(`none`); short `s.read(n)` calls return the remaining bytes, as
`BytesIO.read` does.  Returns the commands and the final count. -/
def parseLoop (fuel : Nat) (s : Bytes) (count length : Nat) :
    Option (List Command × Nat) :=
  if count < length then
    match fuel, s with
    | _, [] => none
    | 0, _ :: _ => none
    | fuel + 1, b :: rest =>
      if 1 ≤ b ∧ b ≤ 75 then
        (parseLoop fuel (rest.drop b) (count + 1 + b) length).map
          (fun r => (Command.push (rest.take b) :: r.1, r.2))
      else if b = 76 then
        let dl := littleEndianToInt (rest.take 1)
        (parseLoop fuel ((rest.drop 1).drop dl) (count + 1 + dl + 1) length).map
          (fun r => (Command.push ((rest.drop 1).take dl) :: r.1, r.2))
      else if b = 77 then
        let dl := littleEndianToInt (rest.take 2)
        (parseLoop fuel ((rest.drop 2).drop dl) (count + 1 + dl + 2) length).map
          (fun r => (Command.push ((rest.drop 2).take dl) :: r.1, r.2))
      else
        (parseLoop fuel rest (count + 1) length).map
          (fun r => (Command.op b :: r.1, r.2))
  else
    some ([], count)

/-- `Script.parse` (script.py lines 70-111): read the varint total
length, run the loop, and fail (`SyntaxError`) when the consumed
count differs from the declared length.  The loop consumes at least
one stream byte per iteration, so `rest.length` is always enough fuel
and the fuel-exhaustion arm of `parseLoop` is unreachable here. -/
def Script.parse (s : Bytes) : Option Script :=
  match readVarint s with
  | none => none
  | some (length, rest) =>
    match parseLoop rest.length rest 0 length with
    | none => none
    | some (cmds, count) =>
      if count = length then some ⟨cmds⟩ else none

/-- The per-command encoder inside `Script.raw_serialize` (script.py
lines 113-141): opcodes become one little-endian byte; pushes get the
tier whose guard they satisfy (`< 75`, `> 75 and < 0x100`,
`>= 0x100 and <= 520`), and anything else raises `ValueError`. -/
def encodeCommand : Command → Option Bytes
  | .op n => intToLittleEndian n 1
  | .push bs =>
    let length := bs.length
    if length < 75 then
      (intToLittleEndian length 1).map (· ++ bs)
    else if length > 75 ∧ length < 0x100 then
      match intToLittleEndian 76 1, intToLittleEndian length 1 with
      | some m, some l => some (m ++ l ++ bs)
      | _, _ => none
    else if length ≥ 0x100 ∧ length ≤ 520 then
      match intToLittleEndian 77 1, intToLittleEndian length 2 with
      | some m, some l => some (m ++ l ++ bs)
      | _, _ => none
    else
      none

/-- `Script.raw_serialize` (script.py lines 113-147) over the command
list: concatenate the per-command encodings, failing if any command
fails to encode. -/
def rawSerializeCommands : List Command → Option Bytes
  | [] => some []
  | c :: cs =>
    match encodeCommand c, rawSerializeCommands cs with
    | some e, some r => some (e ++ r)
    | _, _ => none

/-- `Script.raw_serialize` on a `Script`. -/
def Script.rawSerialize (s : Script) : Option Bytes :=
  rawSerializeCommands s.commands

/-- `Script.serialize` (script.py lines 143-147): the varstr framing of
the raw serialization. -/
def Script.serialize (s : Script) : Option Bytes :=
  match s.rawSerialize with
  | none => none
  | some raw => encodeVarstr raw

/-- `p2pkh_script` (script.py lines 26-28): the canonical key-hash
locking template `OP_DUP OP_HASH160 <h160> OP_EQUALVERIFY OP_CHECKSIG`. -/
def p2pkh_script (h160 : Bytes) : Script :=
  ⟨[.op 0x76, .op 0xa9, .push h160, .op 0x88, .op 0xac]⟩

/-- `p2sh_script` (script.py lines 31-33). -/
def p2sh_script (h160 : Bytes) : Script :=
  ⟨[.op 0xa9, .push h160, .op 0x87]⟩

/-- `p2wpkh_script` (script.py lines 36-38). -/
def p2wpkh_script (h160 : Bytes) : Script :=
  ⟨[.op 0x00, .push h160]⟩

/-- `p2wsh_script` (script.py lines 41-43). -/
def p2wsh_script (s256 : Bytes) : Script :=
  ⟨[.op 0x00, .push s256]⟩

/-- The external opcode dispatch table `OP_CODE_FUNCTIONS` from module
`op` (external collaborator, not under src/).  The Python functions
mutate the structures they are handed and return a success boolean;
here each returns the updated structures, `none` meaning the opcode
reported failure.  The four fields are the four calling conventions
chosen by `Script.evaluate` by opcode number. -/
structure OpTable where
  branchOp : Nat → List Bytes → List Command → Option (List Bytes × List Command)
  altOp : Nat → List Bytes → List Bytes → Option (List Bytes × List Bytes)
  sigOp : Nat → List Bytes → Nat → Option (List Bytes)
  stackOp : Nat → List Bytes → Option (List Bytes)

/-- Modelled from the spec: `op.op_hash160` (module `op` is not under
src/) — pop the top element, push its 160-bit hash; fail on an empty
stack.  Parametric in the external `hash160` primitive. -/
def op_hash160 (hash160fn : Bytes → Bytes) (stack : List Bytes) : Option (List Bytes) :=
  match stack.getLast? with
  | none => none
  | some e => some (stack.dropLast ++ [hash160fn e])

/-- Modelled from the spec: `op.op_equal` (module `op` is not under
src/) — pop two elements and push the encoding of 1 (`[1]`) when they
are equal, of 0 (the empty byte string) otherwise. -/
def op_equal (stack : List Bytes) : Option (List Bytes) :=
  match stack.reverse with
  | e1 :: e2 :: rest => some (rest.reverse ++ [if e1 = e2 then [1] else []])
  | _ => none

/-- Modelled from the spec: `op.op_verify` (module `op` is not under
src/) — pop the top element and require it be truthy (spec: the empty
byte string is false). -/
def op_verify (stack : List Bytes) : Option (List Bytes) :=
  match stack.getLast? with
  | none => none
  | some e => if e = [] then none else some stack.dropLast

/-- Outcome of one iteration of the `Script.evaluate` loop. -/
inductive StepRes where
  | cont (commands : List Command) (stack altstack : List Bytes)
  | ret (b : Bool)
  | exn
  deriving DecidableEq, Repr

/-- Overall outcome of `Script.evaluate`: a returned boolean, a raised
exception, or fuel exhaustion of the shallow embedding (the Python
loop has no intrinsic bound). -/
inductive EvalRes where
  | ok (b : Bool)
  | exn
  | out
  deriving DecidableEq, Repr

/-- The script-hash trigger of script.py lines 186-189: exactly three
commands remain and they are `OP_HASH160`, a 20-byte push, `OP_EQUAL`. -/
def isP2shTriple : List Command → Bool
  | [.op 0xa9, .push h, .op 0x87] => h.length = 20
  | _ => false

/-- The embedded 20-byte hash of a script-hash trigger (the middle
queued command, `commands[1]`). -/
def tripleHash : List Command → Bytes
  | [_, .push h, _] => h
  | _ => []

/-- The two witness-program v0 rules of script.py lines 206-226,
applied after a push (and after a script-hash expansion): they watch
the stack, not the queue.  `commands` is the remaining queue, which
`commands.extend(...)` grows at the end. -/
def witnessCheck (sha256fn : Bytes → Bytes) (witness : List Bytes)
    (commands : List Command) (stack alt : List Bytes) : StepRes :=
  match stack with
  | [e0, e1] =>
    if e0 = [] ∧ e1.length = 20 then
      -- p2wpkh: pop both, extend with the witness and the p2pkh template
      .cont (commands ++ witness.map Command.push ++ (p2pkh_script e1).commands) [] alt
    else if e0 = [] ∧ e1.length = 32 then
      -- p2wsh: pop both, extend with all but the last witness element,
      -- then access the last witness element (IndexError when absent),
      -- check its sha256, and parse it as a script
      let commands := commands ++ (witness.dropLast).map Command.push
      match witness.getLast? with
      | none => .exn
      | some ws =>
        if e1 ≠ sha256fn ws then .ret false
        else
          match encodeVarint ws.length with
          | none => .exn
          | some vi =>
            match Script.parse (vi ++ ws) with
            | none => .exn
            | some sc => .cont (commands ++ sc.commands) [] alt
    else .cont commands stack alt
  | _ => .cont commands stack alt

/-- One iteration of the `Script.evaluate` loop (script.py lines
154-226) on the popped command `c` with remaining queue `rest`.
Opcodes dispatch to the external table by calling convention; pushes
land on the stack and then run the script-hash rule (against the
queue) and the witness-program rules (against the stack). -/
def evalStep (ot : OpTable) (hash160fn sha256fn : Bytes → Bytes)
    (z : Nat) (witness : List Bytes) :
    Command → List Command → List Bytes → List Bytes → StepRes
  | .op n, rest, stack, alt =>
    if n = 99 ∨ n = 100 then
      match ot.branchOp n stack rest with
      | none => .ret false
      | some (stack1, rest1) => .cont rest1 stack1 alt
    else if n = 107 ∨ n = 108 then
      match ot.altOp n stack alt with
      | none => .ret false
      | some (stack1, alt1) => .cont rest stack1 alt1
    else if n = 172 ∨ n = 173 ∨ n = 174 ∨ n = 175 then
      match ot.sigOp n stack z with
      | none => .ret false
      | some stack1 => .cont rest stack1 alt
    else
      match ot.stackOp n stack with
      | none => .ret false
      | some stack1 => .cont rest stack1 alt
  | .push bs, rest, stack, alt =>
    if isP2shTriple rest then
      -- script-hash rule: the remaining queue is exactly
      -- {OP_HASH160, 20-byte push, OP_EQUAL}; encode_varstr first (its
      -- ValueError would be raised before the hand-executed opcodes),
      -- then hand-run op_hash160, the embedded push (the middle queued
      -- command), op_equal and op_verify, then parse the redeem script
      -- and replace the (now emptied) queue with its commands
      match encodeVarstr bs with
      | none => .exn
      | some rs =>
        match op_hash160 hash160fn (stack ++ [bs]) with
        | none => .ret false
        | some stack1 =>
          match op_equal (stack1 ++ [tripleHash rest]) with
          | none => .ret false
          | some stack2 =>
            match op_verify stack2 with
            | none => .ret false
            | some stack3 =>
              match Script.parse rs with
              | none => .exn
              | some sc => witnessCheck sha256fn witness sc.commands stack3 alt
    else witnessCheck sha256fn witness rest (stack ++ [bs]) alt

/-- The `Script.evaluate` loop (script.py lines 149-231), fueled.  On
an exhausted queue the final verdict is false for an empty stack or an
empty top element, true otherwise. -/
def evalLoop (ot : OpTable) (hash160fn sha256fn : Bytes → Bytes)
    (z : Nat) (witness : List Bytes) :
    Nat → List Command → List Bytes → List Bytes → EvalRes
  | 0, _, _, _ => .out
  | _ + 1, [], stack, _ =>
    match stack.getLast? with
    | none => .ok false
    | some top => if top = [] then .ok false else .ok true
  | fuel + 1, c :: rest, stack, alt =>
    match evalStep ot hash160fn sha256fn z witness c rest stack alt with
    | .cont cs st at1 => evalLoop ot hash160fn sha256fn z witness fuel cs st at1
    | .ret b => .ok b
    | .exn => .exn

/-- `Script.evaluate` (script.py lines 149-231): run the loop on a
copy of the command list with fresh empty stack and altstack. -/
def Script.evaluate (ot : OpTable) (hash160fn sha256fn : Bytes → Bytes)
    (fuel : Nat) (s : Script) (z : Nat) (witness : List Bytes) : EvalRes :=
  evalLoop ot hash160fn sha256fn z witness fuel s.commands [] []

/-- The caller-owned storage that `Script.evaluate` must not mutate:
the command list of the evaluated `Script` object and the witness
list.  Both are reachable by the evaluator, which works on the copy
`self.commands[:]` and only reads the witness. -/
structure CallerState where
  scriptCommands : List Command
  witness : List Bytes
  deriving DecidableEq, Repr

/-- The `Script.evaluate` loop with the caller-owned storage threaded
through every iteration, returned alongside the result: every
mutating operation of the source acts on the working copy, the stack
or the altstack, so each arm passes `cs` on unchanged. -/
def evalLoopTracked (ot : OpTable) (hash160fn sha256fn : Bytes → Bytes) (z : Nat) :
    Nat → CallerState → List Command → List Bytes → List Bytes → EvalRes × CallerState
  | 0, cs, _, _, _ => (.out, cs)
  | _ + 1, cs, [], stack, _ =>
    match stack.getLast? with
    | none => (.ok false, cs)
    | some top => if top = [] then (.ok false, cs) else (.ok true, cs)
  | fuel + 1, cs, c :: rest, stack, alt =>
    match evalStep ot hash160fn sha256fn z cs.witness c rest stack alt with
    | .cont cmds st at1 => evalLoopTracked ot hash160fn sha256fn z fuel cs cmds st at1
    | .ret b => (.ok b, cs)
    | .exn => (.exn, cs)

/-- `Script.evaluate` with the caller-owned storage made explicit: the
working command list starts as the value of `self.commands` (the
`self.commands[:]` copy), and the final caller state is returned. -/
def Script.evaluateTracked (ot : OpTable) (hash160fn sha160fn : Bytes → Bytes)
    (fuel : Nat) (s : Script) (z : Nat) (witness : List Bytes) :
    EvalRes × CallerState :=
  let cs : CallerState := ⟨s.commands, witness⟩
  evalLoopTracked ot hash160fn sha160fn z fuel cs cs.scriptCommands [] []

/-- `Script.is_p2pkh_script_pubkey` (script.py lines 233-243). -/
def Script.is_p2pkh_script_pubkey (s : Script) : Bool :=
  match s.commands with
  | [.op 0x76, .op 0xa9, .push h, .op 0x88, .op 0xac] => h.length = 20
  | _ => false

/-- `Script.is_p2sh_script_pubkey` (script.py lines 245-252). -/
def Script.is_p2sh_script_pubkey (s : Script) : Bool :=
  match s.commands with
  | [.op 0xa9, .push h, .op 0x87] => h.length = 20
  | _ => false

/-- `Script.is_p2wpkh_script_pubkey` (script.py lines 254-258). -/
def Script.is_p2wpkh_script_pubkey (s : Script) : Bool :=
  match s.commands with
  | [.op 0x00, .push h] => h.length = 20
  | _ => false

/-- `Script.is_p2wsh_script_pubkey` (script.py lines 260-264). -/
def Script.is_p2wsh_script_pubkey (s : Script) : Bool :=
  match s.commands with
  | [.op 0x00, .push h] => h.length = 32
  | _ => false

/-- A concrete instance of the external 160-bit hash, used to evaluate
the embedding on closed inputs. -/
def dummyH160 : Bytes → Bytes := fun _ => List.replicate 20 0

/-- A concrete instance of the external 256-bit hash, used to evaluate
the embedding on closed inputs. -/
def dummyS256 : Bytes → Bytes := fun _ => List.replicate 32 0

/-- A concrete instance of the external opcode table on which every
opcode reports failure, used to evaluate the embedding on closed
inputs. -/
def dummyOT : OpTable :=
  ⟨fun _ _ _ => none, fun _ _ _ => none, fun _ _ _ => none, fun _ _ => none⟩

/-- The push-length tiering as the spec states it (refinement side for
the minimal-encoding claim): lengths 0-74 one length byte, 76-255 the
marker-76 tier, 256-520 the marker-77 tier with the little-endian
2-byte length. -/
def pushPrefixSpec (n : Nat) : Bytes :=
  if n ≤ 74 then [n]
  else if n ≤ 255 then [76, n]
  else [77, n % 256, n / 256]

/-- A stack shape that fires one of the two witness-program v0 rules:
exactly two elements, the lower one empty, the upper one of length 20
or 32. -/
def witnessTrigger (stack : List Bytes) : Bool :=
  match stack with
  | [e0, e1] => e0 = [] ∧ (e1.length = 20 ∨ e1.length = 32)
  | _ => false

/-- Validity of a constructed command for the round-trip claim: an
opcode is a byte that does not collide with a push-length marker
(1-75) or a pushdata marker (76, 77); a data push is nonempty, not of
the unencodable length 75, and at most 520 bytes. -/
def validCommand : Command → Bool
  | .op n => decide (n ≤ 255 ∧ ¬(1 ≤ n ∧ n ≤ 77))
  | .push bs => decide (1 ≤ bs.length ∧ bs.length ≠ 75 ∧ bs.length ≤ 520)

section Lemmas

/-- One-byte little-endian encoding of a byte value. -/
theorem intToLittleEndian_one (n : Nat) (h : n < 256) :
    intToLittleEndian n 1 = some [n] := by
  simp [intToLittleEndian, h, List.range_succ, Nat.mod_eq_of_lt h]

/-- Two-byte little-endian encoding. -/
theorem intToLittleEndian_two (n : Nat) (h : n < 65536) :
    intToLittleEndian n 2 = some [n % 256, n / 256 % 256] := by
  have : (256 : Nat) ^ 2 = 65536 := by norm_num
  simp [intToLittleEndian, this, h, List.range_succ]

/-- Little-endian decode is the inverse of the byte decomposition. -/
theorem littleEndianToInt_range (k n : Nat) :
    littleEndianToInt ((List.range k).map fun i => n / 256 ^ i % 256)
      = n % 256 ^ k := by
  induction k generalizing n with
  | zero => simp [littleEndianToInt, Nat.mod_one]
  | succ m ih =>
    rw [List.range_succ_eq_map]
    have hmap : (List.map (fun i => n / 256 ^ i % 256) (List.map Nat.succ (List.range m)))
        = (List.range m).map fun i => (n / 256) / 256 ^ i % 256 := by
      rw [List.map_map]
      refine List.map_congr_left ?_
      intro i _
      simp only [Function.comp_apply]
      congr 1
      rw [Nat.div_div_eq_div_mul]
      congr 1
      rw [Nat.succ_eq_add_one]
      ring
    simp only [List.map_cons, hmap, littleEndianToInt, List.foldr_cons]
    have : littleEndianToInt ((List.range m).map fun i => (n / 256) / 256 ^ i % 256)
        = (n / 256) % 256 ^ m := ih (n / 256)
    simp only [littleEndianToInt] at this
    rw [this]
    have h2 : (256 : Nat) ^ (m + 1) = 256 * 256 ^ m := by ring
    rw [h2, Nat.mod_mul]
    simp [Nat.pow_zero]

/-- The little-endian encoding of a value that fits decodes back to
the value, with the remaining stream untouched. -/
theorem littleEndianToInt_intToLittleEndian (n k : Nat) (bs : Bytes)
    (hn : n < 256 ^ k) (h : intToLittleEndian n k = some bs) :
    littleEndianToInt bs = n ∧ bs.length = k := by
  simp only [intToLittleEndian, if_pos hn, Option.some.injEq] at h
  subst h
  constructor
  · rw [littleEndianToInt_range, Nat.mod_eq_of_lt hn]
  · simp

/-- Varint round trip: `read_varint` undoes `encode_varint` and leaves
the rest of the stream. -/
theorem readVarint_encodeVarint (n : Nat) (vi rest : Bytes)
    (h : encodeVarint n = some vi) :
    readVarint (vi ++ rest) = some (n, rest) := by
  by_cases h1 : n < 0xfd
  · simp only [encodeVarint, if_pos h1, Option.some.injEq] at h
    subst h
    simp only [List.cons_append, List.nil_append, readVarint]
    have e1 : n ≠ 0xfd := by omega
    have e2 : n ≠ 0xfe := by omega
    have e3 : n ≠ 0xff := by omega
    simp [e1, e2, e3]
  · by_cases h2 : n < 0x10000
    · simp only [encodeVarint, if_neg h1, if_pos h2, Option.map_eq_some'] at h
      obtain ⟨le, hle, hvi⟩ := h
      have hlen : le.length = 2 := (littleEndianToInt_intToLittleEndian n 2 le (by norm_num; omega) hle).2
      have hdec : littleEndianToInt le = n := (littleEndianToInt_intToLittleEndian n 2 le (by norm_num; omega) hle).1
      subst hvi
      simp only [List.cons_append, readVarint, if_pos rfl]
      rw [List.take_left' hlen, List.drop_left' hlen, hdec]
      simp
    · by_cases h3 : n < 0x100000000
      · simp only [encodeVarint, if_neg h1, if_neg h2, if_pos h3, Option.map_eq_some'] at h
        obtain ⟨le, hle, hvi⟩ := h
        have hfit : n < 256 ^ 4 := by norm_num; omega
        have hlen : le.length = 4 := (littleEndianToInt_intToLittleEndian n 4 le hfit hle).2
        have hdec : littleEndianToInt le = n := (littleEndianToInt_intToLittleEndian n 4 le hfit hle).1
        subst hvi
        simp only [List.cons_append, readVarint]
        norm_num
        rw [List.take_left' hlen, List.drop_left' hlen, hdec]
        simp
      · by_cases h4 : n < 0x10000000000000000
        · simp only [encodeVarint, if_neg h1, if_neg h2, if_neg h3, if_pos h4,
            Option.map_eq_some'] at h
          obtain ⟨le, hle, hvi⟩ := h
          have hfit : n < 256 ^ 8 := by norm_num; omega
          have hlen : le.length = 8 := (littleEndianToInt_intToLittleEndian n 8 le hfit hle).2
          have hdec : littleEndianToInt le = n := (littleEndianToInt_intToLittleEndian n 8 le hfit hle).1
          subst hvi
          simp only [List.cons_append, readVarint]
          norm_num
          rw [List.take_left' hlen, List.drop_left' hlen, hdec]
          simp
        · simp [encodeVarint, h1, h2, h3, h4] at h

/-- Opcode encoding: one byte. -/
theorem encodeCommand_op (n : Nat) (h : n ≤ 255) :
    encodeCommand (.op n) = some [n] := by
  simpa [encodeCommand] using intToLittleEndian_one n (by omega)

/-- Push encoding, single-byte tier. -/
theorem encodeCommand_push_small (bs : Bytes) (h : bs.length < 75) :
    encodeCommand (.push bs) = some (bs.length :: bs) := by
  simp only [encodeCommand, if_pos h]
  rw [intToLittleEndian_one bs.length (by omega)]
  simp

/-- Push encoding, marker-76 tier. -/
theorem encodeCommand_push_mid (bs : Bytes) (h1 : 75 < bs.length)
    (h2 : bs.length < 256) :
    encodeCommand (.push bs) = some (76 :: bs.length :: bs) := by
  have hn : ¬bs.length < 75 := by omega
  simp only [encodeCommand, if_neg hn, if_pos (And.intro h1 h2)]
  rw [intToLittleEndian_one 76 (by norm_num), intToLittleEndian_one bs.length h2]
  simp

/-- Push encoding, marker-77 tier. -/
theorem encodeCommand_push_big (bs : Bytes) (h1 : 256 ≤ bs.length)
    (h2 : bs.length ≤ 520) :
    encodeCommand (.push bs) = some (77 :: bs.length % 256 :: bs.length / 256 :: bs) := by
  have hn : ¬bs.length < 75 := by omega
  have hn2 : ¬(75 < bs.length ∧ bs.length < 256) := by omega
  simp only [encodeCommand, if_neg hn, if_neg hn2, if_pos (And.intro h1 h2)]
  rw [intToLittleEndian_one 77 (by norm_num), intToLittleEndian_two bs.length (by omega)]
  have : bs.length / 256 % 256 = bs.length / 256 := by omega
  rw [this]
  simp

/-- One parse-loop step on an opcode byte. -/
theorem parseLoop_step_op (f count length n : Nat) (r : Bytes)
    (hlt : count < length) (hb1 : ¬(1 ≤ n ∧ n ≤ 75)) (hb2 : n ≠ 76) (hb3 : n ≠ 77) :
    parseLoop (f + 1) (n :: r) count length
      = (parseLoop f r (count + 1) length).map
          (fun p => (Command.op n :: p.1, p.2)) := by
  rw [parseLoop]
  simp [hlt, hb1, hb2, hb3]

/-- One parse-loop step on a direct push-length byte. -/
theorem parseLoop_step_push (f count length : Nat) (bs r : Bytes)
    (hlt : count < length) (hb : 1 ≤ bs.length ∧ bs.length ≤ 75) :
    parseLoop (f + 1) (bs.length :: (bs ++ r)) count length
      = (parseLoop f r (count + 1 + bs.length) length).map
          (fun p => (Command.push bs :: p.1, p.2)) := by
  rw [parseLoop]
  simp only [if_pos hlt, if_pos hb]
  rw [List.take_left, List.drop_left]

/-- One parse-loop step on a pushdata1 marker. -/
theorem parseLoop_step_76 (f count length : Nat) (bs r : Bytes)
    (hlt : count < length) :
    parseLoop (f + 1) (76 :: bs.length :: (bs ++ r)) count length
      = (parseLoop f r (count + 1 + bs.length + 1) length).map
          (fun p => (Command.push bs :: p.1, p.2)) := by
  rw [parseLoop]
  have hb1 : ¬(1 ≤ (76:Nat) ∧ (76:Nat) ≤ 75) := by omega
  simp only [if_pos hlt, hb1, if_false, ite_false, if_pos rfl]
  have hdl : littleEndianToInt ((bs.length :: (bs ++ r)).take 1) = bs.length := by
    simp [littleEndianToInt]
  simp only [hdl, List.drop_succ_cons, List.drop_zero]
  rw [List.take_left, List.drop_left]
  simp

/-- One parse-loop step on a pushdata2 marker. -/
theorem parseLoop_step_77 (f count length : Nat) (bs r : Bytes)
    (hlt : count < length) :
    parseLoop (f + 1) (77 :: bs.length % 256 :: bs.length / 256 :: (bs ++ r)) count length
      = (parseLoop f r (count + 1 + bs.length + 2) length).map
          (fun p => (Command.push bs :: p.1, p.2)) := by
  rw [parseLoop]
  have hb1 : ¬(1 ≤ (77:Nat) ∧ (77:Nat) ≤ 75) := by omega
  have hb2 : (77:Nat) ≠ 76 := by omega
  simp only [if_pos hlt, hb1, hb2, if_false, ite_false, if_pos rfl]
  have hdl : littleEndianToInt
      ((bs.length % 256 :: bs.length / 256 :: (bs ++ r)).take 2) = bs.length := by
    simp [littleEndianToInt]
    omega
  simp only [hdl, List.drop_succ_cons, List.drop_zero]
  rw [List.take_left, List.drop_left]
  simp

/-- The parse loop inverts `raw_serialize` on valid command lists: fed
the encoding (with enough fuel, which `Script.parse` always supplies),
it returns exactly the original commands and consumes exactly the
encoded length. -/
theorem parseLoop_encode (cmds : List Command) :
    ∀ (enc : Bytes) (count fuel : Nat),
    (∀ c ∈ cmds, validCommand c = true) →
    rawSerializeCommands cmds = some enc →
    enc.length ≤ fuel →
    parseLoop fuel enc count (count + enc.length) = some (cmds, count + enc.length) := by
  induction cmds with
  | nil =>
    intro enc count fuel _ henc _
    simp only [rawSerializeCommands, Option.some.injEq] at henc
    subst henc
    simp [parseLoop]
  | cons c cs ih =>
    intro enc count fuel hv henc hfuel
    simp only [rawSerializeCommands] at henc
    rcases he : encodeCommand c with _ | e <;> rw [he] at henc
    · simp at henc
    rcases hr : rawSerializeCommands cs with _ | r <;> rw [hr] at henc
    · simp at henc
    simp only [Option.some.injEq] at henc
    subst henc
    have hvc : validCommand c = true := hv c (by simp)
    have hvcs : ∀ x ∈ cs, validCommand x = true := fun x hx => hv x (by simp [hx])
    cases c with
    | op n =>
      simp only [validCommand, decide_eq_true_eq] at hvc
      have hesh : e = [n] := by
        rw [encodeCommand_op n (by omega)] at he
        exact (Option.some.inj he).symm
      subst hesh
      rcases fuel with _ | f
      · simp at hfuel
      simp only [List.cons_append, List.nil_append, List.length_cons, List.length_append]
      rw [parseLoop_step_op f count (count + (r.length + 1)) n r (by omega)
        (by omega) (by omega) (by omega)]
      have harith : count + (r.length + 1) = (count + 1) + r.length := by omega
      rw [harith, ih r (count + 1) f hvcs hr (by simp at hfuel; omega)]
      simp
    | push bs =>
      simp only [validCommand, decide_eq_true_eq] at hvc
      rcases Nat.lt_or_ge bs.length 75 with hsm | hge
      · -- single-byte tier
        have hesh : e = bs.length :: bs := by
          rw [encodeCommand_push_small bs hsm] at he
          exact (Option.some.inj he).symm
        subst hesh
        rcases fuel with _ | f
        · simp at hfuel
        simp only [List.cons_append, List.length_cons, List.length_append]
        rw [parseLoop_step_push f count (count + (bs.length + r.length + 1)) bs r
          (by omega) ⟨hvc.1, by omega⟩]
        have harith : count + (bs.length + r.length + 1)
            = (count + 1 + bs.length) + r.length := by omega
        rw [harith, ih r (count + 1 + bs.length) f hvcs hr (by simp at hfuel; omega)]
        simp
      · rcases Nat.lt_or_ge bs.length 256 with hmd | hbg
        · -- marker-76 tier
          have hesh : e = 76 :: bs.length :: bs := by
            rw [encodeCommand_push_mid bs (by omega) hmd] at he
            exact (Option.some.inj he).symm
          subst hesh
          rcases fuel with _ | f
          · simp at hfuel
          simp only [List.cons_append, List.length_cons, List.length_append]
          rw [parseLoop_step_76 f count (count + (bs.length + r.length + 1 + 1)) bs r
            (by omega)]
          have harith : count + (bs.length + r.length + 1 + 1)
              = (count + 1 + bs.length + 1) + r.length := by omega
          rw [harith, ih r (count + 1 + bs.length + 1) f hvcs hr (by simp at hfuel; omega)]
          simp
        · -- marker-77 tier
          have hesh : e = 77 :: bs.length % 256 :: bs.length / 256 :: bs := by
            rw [encodeCommand_push_big bs hbg hvc.2.2] at he
            exact (Option.some.inj he).symm
          subst hesh
          rcases fuel with _ | f
          · simp at hfuel
          simp only [List.cons_append, List.length_cons, List.length_append]
          rw [parseLoop_step_77 f count (count + (bs.length + r.length + 1 + 1 + 1)) bs r
            (by omega)]
          have harith : count + (bs.length + r.length + 1 + 1 + 1)
              = (count + 1 + bs.length + 2) + r.length := by omega
          rw [harith, ih r (count + 1 + bs.length + 2) f hvcs hr (by simp at hfuel; omega)]
          simp

end Lemmas

section Claims

/-- Claim C1 (amended): for every validly constructed Script whose
data pushes are in addition nonempty, parsing the serialized form
yields back exactly the same command list, and (the second conjunct)
the parsed script re-serializes to the original bytes. -/
theorem parse_serialize_roundtrip (s : Script)
    (hv : ∀ c ∈ s.commands, validCommand c = true)
    (bytes : Bytes) (hs : Script.serialize s = some bytes) :
    Script.parse bytes = some s ∧
    ∀ s2, Script.parse bytes = some s2 → Script.serialize s2 = some bytes := by
  obtain ⟨cmds⟩ := s
  have hmain : Script.parse bytes = some ⟨cmds⟩ := by
    simp only [Script.serialize, Script.rawSerialize] at hs
    rcases hraw : rawSerializeCommands cmds with _ | raw <;> rw [hraw] at hs
    · simp at hs
    simp only [encodeVarstr, Option.map_eq_some'] at hs
    obtain ⟨vi, hvi, hbytes⟩ := hs
    subst hbytes
    simp only [Script.parse]
    rw [readVarint_encodeVarint raw.length vi raw hvi]
    have hloop := parseLoop_encode cmds raw 0 raw.length hv hraw (Nat.le_refl _)
    simp only [Nat.zero_add] at hloop
    simp only [hloop]
    simp
  refine ⟨hmain, fun s2 hs2 => ?_⟩
  rw [hmain] at hs2
  obtain rfl : Script.mk cmds = s2 := Option.some.inj hs2
  exact hs

/-- Claim C1 witness: a concrete valid script round-trips. -/
theorem parse_serialize_roundtrip_witness :
    Script.parse [5, 118, 3, 1, 2, 3] = some ⟨[.op 118, .push [1, 2, 3]]⟩ ∧
    ∀ s2, Script.parse [5, 118, 3, 1, 2, 3] = some s2 →
      Script.serialize s2 = some [5, 118, 3, 1, 2, 3] :=
  parse_serialize_roundtrip ⟨[.op 118, .push [1, 2, 3]]⟩ (by decide)
    [5, 118, 3, 1, 2, 3] (by decide)

/-- Claim C1 counterexample: the empty data push is within the
encodable length range 0-74 (it serializes as the single byte 0), yet
parsing reads byte 0 back as an Opcode command, so the round trip
fails command-for-command on `Script([b''])`. -/
theorem parse_serialize_roundtrip_cex :
    (∀ c ∈ (Script.mk [.push []]).commands, c = .push [] ∧
      ((0:Nat) ≤ 74 ∧ ¬(1 ≤ (0:Nat) ∧ (0:Nat) ≤ 77))) ∧
    Script.serialize ⟨[.push []]⟩ = some [1, 0] ∧
    Script.parse [1, 0] = some ⟨[.op 0]⟩ ∧
    Script.mk [.op 0] ≠ ⟨[.push []]⟩ := by
  refine ⟨by decide, by decide, by decide, by decide⟩

/-- Claim C2: when the command queue is exhausted, the evaluator
returns false on an empty stack or an empty top element, and true for
any other top element — a single zero byte included — independent of
numeric interpretation. -/
theorem evaluate_final_verdict (ot : OpTable) (hash160fn sha256fn : Bytes → Bytes)
    (z : Nat) (w : List Bytes) (fuel : Nat) (stack alt : List Bytes) :
    evalLoop ot hash160fn sha256fn z w (fuel + 1) [] stack alt
      = .ok (stack.getLast?.elim false (fun top => !top.isEmpty)) := by
  cases hs : stack.getLast? with
  | none => simp [evalLoop, hs]
  | some top =>
    by_cases ht : top = []
    · subst ht
      simp [evalLoop, hs]
    · simp [evalLoop, hs, ht, List.isEmpty_iff]

/-- Claim C6: minimal push encoding by tier, stated against the tier
table the spec gives (`pushPrefixSpec`): single length byte for 0-74,
marker 76 plus one byte for 76-255, marker 77 plus the 2-byte
little-endian length for 256-520. -/
theorem minimal_push_encoding (bs : Bytes)
    (h75 : bs.length ≠ 75) (h520 : bs.length ≤ 520) :
    Script.rawSerialize ⟨[.push bs]⟩ = some (pushPrefixSpec bs.length ++ bs) := by
  have hstep : encodeCommand (.push bs) = some (pushPrefixSpec bs.length ++ bs) := by
    rcases Nat.lt_or_ge bs.length 75 with hsm | hge
    · rw [encodeCommand_push_small bs hsm]
      simp [pushPrefixSpec, Nat.le_of_lt_succ, show bs.length ≤ 74 by omega]
    · rcases Nat.lt_or_ge bs.length 256 with hmd | hbg
      · rw [encodeCommand_push_mid bs (by omega) hmd]
        have h1 : ¬bs.length ≤ 74 := by omega
        have h2 : bs.length ≤ 255 := by omega
        simp [pushPrefixSpec, h1, h2]
      · rw [encodeCommand_push_big bs hbg h520]
        have h1 : ¬bs.length ≤ 74 := by omega
        have h2 : ¬bs.length ≤ 255 := by omega
        simp [pushPrefixSpec, h1, h2]
  simp [Script.rawSerialize, rawSerializeCommands, hstep]

/-- Claim C6 witness: a length-10 push gets the single length byte 10. -/
theorem minimal_push_encoding_witness :
    Script.rawSerialize ⟨[.push (List.replicate 10 3)]⟩
      = some (pushPrefixSpec (List.replicate 10 3).length ++ List.replicate 10 3) :=
  minimal_push_encoding (List.replicate 10 3) (by decide) (by decide)

/-- Helper for Claim C7: a command that fails to encode poisons the
whole raw serialization. -/
theorem rawSerializeCommands_none_of_mem (cmds : List Command) (c : Command)
    (hc : encodeCommand c = none) (hm : c ∈ cmds) :
    rawSerializeCommands cmds = none := by
  induction cmds with
  | nil => cases hm
  | cons d ds ih =>
    rcases List.mem_cons.mp hm with rfl | hmem
    · simp [rawSerializeCommands, hc]
    · rw [rawSerializeCommands, ih hmem]
      cases encodeCommand d <;> simp

/-- Claim C7: a DataPush of length exactly 75 matches no tier guard of
`raw_serialize` (they cover only `< 75` and `> 75`) and lands in the
same `ValueError` branch as over-520-byte pushes, so any Script
containing it cannot be serialized. -/
theorem push75_not_serializable (cmds : List Command) (bs bs2 : Bytes)
    (h : bs.length = 75) (hmem : Command.push bs ∈ cmds)
    (h2 : bs2.length > 520) :
    encodeCommand (.push bs) = none ∧
    encodeCommand (.push bs2) = none ∧
    Script.rawSerialize ⟨cmds⟩ = none ∧
    Script.serialize ⟨cmds⟩ = none := by
  have he : encodeCommand (.push bs) = none := by
    have h1 : ¬bs.length < 75 := by omega
    have h2 : ¬(bs.length > 75 ∧ bs.length < 256) := by omega
    have h3 : ¬(bs.length ≥ 256 ∧ bs.length ≤ 520) := by omega
    simp [encodeCommand, h1, h2, h3]
  have he2 : encodeCommand (.push bs2) = none := by
    have h1 : ¬bs2.length < 75 := by omega
    have h2b : ¬(bs2.length > 75 ∧ bs2.length < 256) := by omega
    have h3 : ¬(bs2.length ≥ 256 ∧ bs2.length ≤ 520) := by omega
    simp [encodeCommand, h1, h2b, h3]
  have hraw : Script.rawSerialize ⟨cmds⟩ = none := by
    simpa [Script.rawSerialize] using
      rawSerializeCommands_none_of_mem cmds (.push bs) he hmem
  refine ⟨he, he2, hraw, ?_⟩
  simp [Script.serialize, hraw]

/-- Claim C7 witness: the 75-byte push makes a script unserializable,
like a 521-byte push. -/
theorem push75_not_serializable_witness :
    encodeCommand (.push (List.replicate 75 0)) = none ∧
    encodeCommand (.push (List.replicate 521 0)) = none ∧
    Script.rawSerialize ⟨[.push (List.replicate 75 0)]⟩ = none ∧
    Script.serialize ⟨[.push (List.replicate 75 0)]⟩ = none :=
  push75_not_serializable [.push (List.replicate 75 0)]
    (List.replicate 75 0) (List.replicate 521 0)
    (by simp only [List.length_replicate]) (List.mem_singleton.mpr rfl)
    (by simp only [List.length_replicate]; omega)

/-- Shape of a script satisfying the key-hash-lock predicate. -/
theorem is_p2pkh_shape (s : Script) (h : s.is_p2pkh_script_pubkey = true) :
    ∃ hb, s.commands = [.op 0x76, .op 0xa9, .push hb, .op 0x88, .op 0xac]
      ∧ hb.length = 20 := by
  unfold Script.is_p2pkh_script_pubkey at h
  split at h
  · next hb heq => exact ⟨hb, heq, by simpa using h⟩
  · simp at h

/-- Shape of a script satisfying the script-hash-lock predicate. -/
theorem is_p2sh_shape (s : Script) (h : s.is_p2sh_script_pubkey = true) :
    ∃ hb, s.commands = [.op 0xa9, .push hb, .op 0x87] ∧ hb.length = 20 := by
  unfold Script.is_p2sh_script_pubkey at h
  split at h
  · next hb heq => exact ⟨hb, heq, by simpa using h⟩
  · simp at h

/-- Shape of a script satisfying the witness-key-hash predicate. -/
theorem is_p2wpkh_shape (s : Script) (h : s.is_p2wpkh_script_pubkey = true) :
    ∃ hb, s.commands = [.op 0x00, .push hb] ∧ hb.length = 20 := by
  unfold Script.is_p2wpkh_script_pubkey at h
  split at h
  · next hb heq => exact ⟨hb, heq, by simpa using h⟩
  · simp at h

/-- Shape of a script satisfying the witness-script-hash predicate. -/
theorem is_p2wsh_shape (s : Script) (h : s.is_p2wsh_script_pubkey = true) :
    ∃ hb, s.commands = [.op 0x00, .push hb] ∧ hb.length = 32 := by
  unfold Script.is_p2wsh_script_pubkey at h
  split at h
  · next hb heq => exact ⟨hb, heq, by simpa using h⟩
  · simp at h

/-- Claim C8: the four lock-pattern predicates are mutually exclusive;
no Script satisfies two of them at once. -/
theorem lock_patterns_exclusive (s : Script) :
    (s.is_p2pkh_script_pubkey && s.is_p2sh_script_pubkey) = false ∧
    (s.is_p2pkh_script_pubkey && s.is_p2wpkh_script_pubkey) = false ∧
    (s.is_p2pkh_script_pubkey && s.is_p2wsh_script_pubkey) = false ∧
    (s.is_p2sh_script_pubkey && s.is_p2wpkh_script_pubkey) = false ∧
    (s.is_p2sh_script_pubkey && s.is_p2wsh_script_pubkey) = false ∧
    (s.is_p2wpkh_script_pubkey && s.is_p2wsh_script_pubkey) = false := by
  refine ⟨?_, ?_, ?_, ?_, ?_, ?_⟩
  · cases h1 : s.is_p2pkh_script_pubkey with
    | false => simp
    | true =>
      obtain ⟨a, ha, _⟩ := is_p2pkh_shape s h1
      simp [Script.is_p2sh_script_pubkey, ha]
  · cases h1 : s.is_p2pkh_script_pubkey with
    | false => simp
    | true =>
      obtain ⟨a, ha, _⟩ := is_p2pkh_shape s h1
      simp [Script.is_p2wpkh_script_pubkey, ha]
  · cases h1 : s.is_p2pkh_script_pubkey with
    | false => simp
    | true =>
      obtain ⟨a, ha, _⟩ := is_p2pkh_shape s h1
      simp [Script.is_p2wsh_script_pubkey, ha]
  · cases h1 : s.is_p2sh_script_pubkey with
    | false => simp
    | true =>
      obtain ⟨a, ha, _⟩ := is_p2sh_shape s h1
      simp [Script.is_p2wpkh_script_pubkey, ha]
  · cases h1 : s.is_p2sh_script_pubkey with
    | false => simp
    | true =>
      obtain ⟨a, ha, _⟩ := is_p2sh_shape s h1
      simp [Script.is_p2wsh_script_pubkey, ha]
  · cases h1 : s.is_p2wpkh_script_pubkey with
    | false => simp
    | true =>
      obtain ⟨a, ha, ha20⟩ := is_p2wpkh_shape s h1
      simp [Script.is_p2wsh_script_pubkey, ha, ha20]

/-- When the three-command script-hash trigger is absent, a push goes
straight to the witness-program checks with the pushed bytes on top. -/
theorem evalStep_push_not_triple (ot : OpTable) (hash160fn sha256fn : Bytes → Bytes)
    (z : Nat) (w : List Bytes) (bs : Bytes) (rest : List Command)
    (stack alt : List Bytes) (hrest : isP2shTriple rest = false) :
    evalStep ot hash160fn sha256fn z w (.push bs) rest stack alt
      = witnessCheck sha256fn w rest (stack ++ [bs]) alt := by
  simp [evalStep, hrest]

/-- When no witness-program stack shape is present the witness checks
are the identity step. -/
theorem witnessCheck_no_trigger (sha256fn : Bytes → Bytes) (w : List Bytes)
    (cmds : List Command) (stack alt : List Bytes)
    (h : witnessTrigger stack = false) :
    witnessCheck sha256fn w cmds stack alt = .cont cmds stack alt := by
  rcases stack with _ | ⟨e0, _ | ⟨e1, _ | ⟨e2, tl⟩⟩⟩ <;> try rfl
  have hne : ¬(e0 = [] ∧ (e1.length = 20 ∨ e1.length = 32)) := by
    simpa [witnessTrigger] using h
  have h20 : ¬(e0 = [] ∧ e1.length = 20) := fun hc => hne ⟨hc.1, Or.inl hc.2⟩
  have h32 : ¬(e0 = [] ∧ e1.length = 32) := fun hc => hne ⟨hc.1, Or.inr hc.2⟩
  simp [witnessCheck, h20, h32]

/-- The tracked loop computes the same result as the plain loop and
returns the caller-owned storage untouched. -/
theorem evalLoopTracked_eq (ot : OpTable) (hash160fn sha256fn : Bytes → Bytes)
    (z : Nat) : ∀ (fuel : Nat) (cs : CallerState) (cmds : List Command)
    (stack alt : List Bytes),
    evalLoopTracked ot hash160fn sha256fn z fuel cs cmds stack alt
      = (evalLoop ot hash160fn sha256fn z cs.witness fuel cmds stack alt, cs) := by
  intro fuel
  induction fuel with
  | zero => intro cs cmds stack alt; rfl
  | succ f ih =>
    intro cs cmds stack alt
    cases cmds with
    | nil =>
      simp only [evalLoopTracked, evalLoop]
      cases stack.getLast? with
      | none => rfl
      | some top => by_cases ht : top = [] <;> simp [ht]
    | cons c rest =>
      simp only [evalLoopTracked, evalLoop]
      cases evalStep ot hash160fn sha256fn z cs.witness c rest stack alt with
      | cont cs2 st2 at2 => exact ih cs cs2 st2 at2
      | ret b => rfl
      | exn => rfl

/-- Claim C9: evaluation has no effect on its inputs — the evaluator
runs on the copy `self.commands[:]`, so the caller-owned command list
and witness come back exactly as they went in, and the result is the
pure function of the inputs. -/
theorem evaluate_no_mutation (ot : OpTable) (hash160fn sha256fn : Bytes → Bytes)
    (fuel : Nat) (s : Script) (z : Nat) (w : List Bytes) :
    Script.evaluateTracked ot hash160fn sha256fn fuel s z w
      = (Script.evaluate ot hash160fn sha256fn fuel s z w, ⟨s.commands, w⟩) := by
  simp [Script.evaluateTracked, Script.evaluate, evalLoopTracked_eq]

/-- Claim C10: if the witness-script-hash rule fires with an empty
Witness, `evaluate` does not return a boolean: the code reads the last
witness element before the hash check, which is an `IndexError`. -/
theorem p2wsh_empty_witness_raises (ot : OpTable)
    (hash160fn sha256fn : Bytes → Bytes) (z : Nat) (bs : Bytes)
    (rest : List Command) (alt : List Bytes) (fuel : Nat)
    (hb : bs.length = 32) (hrest : isP2shTriple rest = false) :
    evalStep ot hash160fn sha256fn z [] (.push bs) rest [[]] alt = .exn ∧
    Script.evaluate ot hash160fn sha256fn (fuel + 2) ⟨[.push [], .push bs]⟩ z [] = .exn := by
  have key : ∀ (rest2 : List Command) (alt2 : List Bytes),
      isP2shTriple rest2 = false →
      evalStep ot hash160fn sha256fn z [] (.push bs) rest2 [[]] alt2 = .exn := by
    intro rest2 alt2 hr2
    rw [evalStep_push_not_triple ot hash160fn sha256fn z [] bs rest2 [[]] alt2 hr2]
    simp [witnessCheck, hb]
  refine ⟨key rest alt hrest, ?_⟩
  have step1 : evalStep ot hash160fn sha256fn z [] (.push []) [.push bs] [] []
      = .cont [.push bs] [[]] [] := by
    rw [evalStep_push_not_triple ot hash160fn sha256fn z [] [] [.push bs] [] [] rfl]
    rfl
  simp only [Script.evaluate, evalLoop, step1]
  rw [key [] [] rfl]

/-- Claim C10 witness: a concrete 32-byte witness program with an
empty Witness raises instead of returning a boolean. -/
theorem p2wsh_empty_witness_raises_witness :
    evalStep dummyOT dummyH160 dummyS256 0 [] (.push (List.replicate 32 0)) [] [[]] [] = .exn ∧
    Script.evaluate dummyOT dummyH160 dummyS256 2
      ⟨[.push [], .push (List.replicate 32 0)]⟩ 0 [] = .exn :=
  p2wsh_empty_witness_raises dummyOT dummyH160 dummyS256 0 (List.replicate 32 0)
    [] [] 0 (by simp) rfl

/-- Claim C3: when exactly the three commands {OP_HASH160, a 20-byte
push, OP_EQUAL} remain after a push, the evaluator hashes the pushed
bytes against the embedded value: on mismatch the overall result is
false, on match the pushed bytes are decoded as a Script and its
commands become the queue that is executed next (the stack returning
to its pre-push state). -/
theorem p2sh_expansion (ot : OpTable) (hash160fn sha256fn : Bytes → Bytes)
    (z : Nat) (w : List Bytes) (d h : Bytes) (stack alt : List Bytes)
    (rs : Bytes) (sc : Script)
    (hh : h.length = 20) (hstk : witnessTrigger stack = false)
    (hvs : encodeVarstr d = some rs) (hp : Script.parse rs = some sc) :
    evalStep ot hash160fn sha256fn z w (.push d) [.op 0xa9, .push h, .op 0x87] stack alt
      = if h = hash160fn d then .cont sc.commands stack alt else .ret false := by
  have htrip : isP2shTriple [.op 0xa9, .push h, .op 0x87] = true := by
    simp [isP2shTriple, hh]
  have hth : tripleHash [.op 0xa9, .push h, .op 0x87] = h := rfl
  simp only [evalStep, htrip, if_true, hth, hvs]
  have hhash : op_hash160 hash160fn (stack ++ [d]) = some (stack ++ [hash160fn d]) := by
    simp [op_hash160, List.getLast?_concat, List.dropLast_concat]
  have heq : op_equal ((stack ++ [hash160fn d]) ++ [h])
      = some (stack ++ [if h = hash160fn d then [1] else []]) := by
    simp only [op_equal, List.reverse_append, List.reverse_cons, List.reverse_nil,
      List.nil_append, List.cons_append]
    simp [List.reverse_reverse]
  simp only [hhash, heq]
  by_cases hcmp : h = hash160fn d
  · simp only [if_pos hcmp]
    have hver : op_verify (stack ++ [[1]]) = some stack := by
      simp [op_verify, List.getLast?_concat, List.dropLast_concat]
    simp only [hver, hp, witnessCheck_no_trigger sha256fn w sc.commands stack alt hstk]
  · simp only [if_neg hcmp]
    have hver : op_verify (stack ++ [[]]) = none := by
      simp [op_verify, List.getLast?_concat]
    simp only [hver]

/-- Claim C3 witness: a concrete redeem script push under a matching
script-hash template expands into the redeem script commands. -/
theorem p2sh_expansion_witness :
    evalStep dummyOT dummyH160 dummyS256 0 [] (.push [81])
      [.op 0xa9, .push (List.replicate 20 0), .op 0x87] [] []
      = if List.replicate 20 0 = dummyH160 [81] then
          .cont (Script.mk [.op 81]).commands [] []
        else .ret false :=
  p2sh_expansion dummyOT dummyH160 dummyS256 0 [] [81] (List.replicate 20 0)
    [] [] [1, 81] ⟨[.op 81]⟩ (by simp) rfl (by decide) (by decide)

/-- Claim C4 counterexample: with a nonempty remaining queue, the
witness-key-hash rule appends the witness and the key-hash template
AFTER the queued command (the code uses `commands.extend`), not at the
front as claimed, and for a nonempty witness the two orders differ. -/
theorem witness_program_front_cex :
    evalStep dummyOT dummyH160 dummyS256 0 [[81]] (.push (List.replicate 20 0))
      [.op 81] [[]] []
      = .cont ([.op 81] ++ [.push [81]] ++ (p2pkh_script (List.replicate 20 0)).commands)
          [] [] ∧
    ([.op 81] ++ [.push [81]] ++ (p2pkh_script (List.replicate 20 0)).commands
      ≠ [.push [81]] ++ (p2pkh_script (List.replicate 20 0)).commands ++ [.op 81]) := by
  refine ⟨by decide, by decide⟩

/-- Claim C4 (amended): when the stack is exactly {empty string below
a 20- or 32-byte element}, both elements are popped and the
replacement commands — the Witness content followed by the key-hash
template, or the Witness elements except the last followed by the
decoded witness-script commands — are APPENDED AT THE END of the
remaining command queue, so they execute after any commands already
queued.  The key-hash branch is unconditional in the Witness; the
script-hash branch carries exactly the hypotheses its rule needs (a
nonempty Witness whose last element hashes to the program and parses). -/
theorem witness_program_expansion (ot : OpTable)
    (hash160fn sha256fn : Bytes → Bytes) (z : Nat) :
    (∀ (w : List Bytes) (bs : Bytes) (rest : List Command) (alt : List Bytes),
      isP2shTriple rest = false → bs.length = 20 →
      evalStep ot hash160fn sha256fn z w (.push bs) rest [[]] alt
        = .cont (rest ++ w.map Command.push ++ (p2pkh_script bs).commands) [] alt)
    ∧ (∀ (winit : List Bytes) (ws bs : Bytes) (rest : List Command)
        (alt : List Bytes) (rs : Bytes) (sc : Script),
      isP2shTriple rest = false → bs.length = 32 →
      sha256fn ws = bs → encodeVarstr ws = some rs → Script.parse rs = some sc →
      evalStep ot hash160fn sha256fn z (winit ++ [ws]) (.push bs) rest [[]] alt
        = .cont (rest ++ winit.map Command.push ++ sc.commands) [] alt) := by
  constructor
  · intro w bs rest alt hrest hb
    rw [evalStep_push_not_triple ot hash160fn sha256fn z w bs rest [[]] alt hrest]
    simp [witnessCheck, hb]
  · intro winit ws bs rest alt rs sc hrest hb hhash hvs hp
    rw [evalStep_push_not_triple ot hash160fn sha256fn z (winit ++ [ws]) bs rest
      [[]] alt hrest]
    obtain ⟨vi, hvi, hrs⟩ : ∃ vi, encodeVarint ws.length = some vi ∧ vi ++ ws = rs := by
      simpa [encodeVarstr, Option.map_eq_some'] using hvs
    have hlast : (winit ++ [ws]).getLast? = some ws := List.getLast?_concat winit
    have hdrop : (winit ++ [ws]).dropLast = winit := List.dropLast_concat ..
    simp [witnessCheck, hb, hlast, hdrop, hhash, hvi, hrs, hp]

/-- Claim C4 amended witness: a 20-byte program appends the whole
witness and the key-hash template after the queued command, and a
32-byte program appends the witness head and the decoded
witness-script commands after the queued command. -/
theorem witness_program_expansion_witness :
    evalStep dummyOT dummyH160 dummyS256 0 [[7]] (.push (List.replicate 20 0))
      [.op 99] [[]] []
      = .cont ([.op 99] ++ [[7]].map Command.push
          ++ (p2pkh_script (List.replicate 20 0)).commands) [] [] ∧
    evalStep dummyOT dummyH160 dummyS256 0 ([[7]] ++ [[81]])
      (.push (List.replicate 32 0)) [.op 99] [[]] []
      = .cont ([.op 99] ++ [[7]].map Command.push
          ++ (Script.mk [.op 81]).commands) [] [] :=
  ⟨(witness_program_expansion dummyOT dummyH160 dummyS256 0).1
      [[7]] (List.replicate 20 0) [.op 99] [] rfl (by simp),
   (witness_program_expansion dummyOT dummyH160 dummyS256 0).2
      [[7]] [81] (List.replicate 32 0) [.op 99] [] [1, 81] ⟨[.op 81]⟩
      rfl (by simp) rfl (by decide) (by decide)⟩

/-- Claim C5 counterexample: a malformed redeem script (the single
byte 76, a pushdata1 marker with no length byte) whose hash matches
the outer template makes `Script.parse` fail inside the expansion;
the `SyntaxError` is not caught and propagates out of `evaluate`
instead of becoming a boolean false. -/
theorem evaluate_exception_cex :
    Script.evaluate dummyOT dummyH160 dummyS256 5
      ⟨[.push [76], .op 0xa9, .push (dummyH160 [76]), .op 0x87]⟩ 0 [] = .exn := by
  decide

/-- Claim C5 (amended): an opcode reporting failure and a hash or
equality mismatch during script-hash or witness-program expansion
each yield the single overall result false, but a malformed
nested-script decode during expansion raises a FormatError that
propagates to the caller instead of returning a boolean (consistent
with the spec error-handling section, which surfaces it). -/
theorem evaluate_failure_semantics (ot : OpTable)
    (hash160fn sha256fn : Bytes → Bytes) (z : Nat)
    (w winit : List Bytes) (ws d h bs32 : Bytes)
    (stack alt : List Bytes) (n : Nat) (rest2 rest3 : List Command) (rs : Bytes)
    (hh : h.length = 20)
    (hn1 : ¬(n = 99 ∨ n = 100)) (hn2 : ¬(n = 107 ∨ n = 108))
    (hn3 : ¬(n = 172 ∨ n = 173 ∨ n = 174 ∨ n = 175))
    (hfail : ot.stackOp n stack = none)
    (hvs : encodeVarstr d = some rs)
    (h32 : bs32.length = 32) (hr3 : isP2shTriple rest3 = false)
    (hw : w = winit ++ [ws]) (hne : sha256fn ws ≠ bs32) :
    evalStep ot hash160fn sha256fn z w (.op n) rest2 stack alt = .ret false ∧
    evalStep ot hash160fn sha256fn z w (.push d) [.op 0xa9, .push h, .op 0x87] stack alt
      = (if h = hash160fn d then
          (match Script.parse rs with
           | none => StepRes.exn
           | some sc => witnessCheck sha256fn w sc.commands stack alt)
         else .ret false) ∧
    evalStep ot hash160fn sha256fn z w (.push bs32) rest3 [[]] alt = .ret false := by
  refine ⟨?_, ?_, ?_⟩
  · simp [evalStep, hn1, hn2, hn3, hfail]
  · have htrip : isP2shTriple [.op 0xa9, .push h, .op 0x87] = true := by
      simp [isP2shTriple, hh]
    have hth : tripleHash [.op 0xa9, .push h, .op 0x87] = h := rfl
    simp only [evalStep, htrip, if_true, hth, hvs]
    have hhash : op_hash160 hash160fn (stack ++ [d]) = some (stack ++ [hash160fn d]) := by
      simp [op_hash160, List.getLast?_concat, List.dropLast_concat]
    have heq : op_equal ((stack ++ [hash160fn d]) ++ [h])
        = some (stack ++ [if h = hash160fn d then [1] else []]) := by
      simp only [op_equal, List.reverse_append, List.reverse_cons, List.reverse_nil,
        List.nil_append, List.cons_append]
      simp [List.reverse_reverse]
    simp only [hhash, heq]
    by_cases hcmp : h = hash160fn d
    · simp only [if_pos hcmp]
      have hver : op_verify (stack ++ [[1]]) = some stack := by
        simp [op_verify, List.getLast?_concat, List.dropLast_concat]
      simp only [hver]
    · simp only [if_neg hcmp]
      have hver : op_verify (stack ++ [[]]) = none := by
        simp [op_verify, List.getLast?_concat]
      simp only [hver]
  · rw [evalStep_push_not_triple ot hash160fn sha256fn z w bs32 rest3 [[]] alt hr3]
    have hlast : w.getLast? = some ws := by
      rw [hw]; exact List.getLast?_concat winit
    have hne2 : bs32 ≠ sha256fn ws := fun hc => hne hc.symm
    have h20 : ¬bs32.length = 20 := by omega
    simp [witnessCheck, h20, h32, hlast, hne2]

/-- Claim C5 amended witness: concrete instances — a failing opcode
returns false, a matching hash over an unparseable redeem script
raises, and a witness-program hash mismatch returns false. -/
theorem evaluate_failure_semantics_witness :
    evalStep dummyOT dummyH160 dummyS256 0 [[80]] (.op 0) [.op 99] [] [] = .ret false ∧
    evalStep dummyOT dummyH160 dummyS256 0 [[80]] (.push [76])
      [.op 0xa9, .push (List.replicate 20 0), .op 0x87] [] []
      = (if List.replicate 20 0 = dummyH160 [76] then
          (match Script.parse [1, 76] with
           | none => StepRes.exn
           | some sc => witnessCheck dummyS256 [[80]] sc.commands [] [])
         else .ret false) ∧
    evalStep dummyOT dummyH160 dummyS256 0 [[80]] (.push (List.replicate 32 1)) [] [[]] []
      = .ret false :=
  evaluate_failure_semantics dummyOT dummyH160 dummyS256 0 [[80]] [] [80] [76]
    (List.replicate 20 0) (List.replicate 32 1) [] [] 0 [.op 99] [] [1, 76]
    (by simp) (by omega) (by omega) (by omega) rfl (by decide)
    (by simp) rfl rfl (by decide)

end Claims



end PW
